import Mathlib

/-!
Verification of the PyRaindropIO fetch-merge-cache engine
(src/pyraindropio/models.py) against its specification.

The Python source is shallowly embedded: the rate-limited fetcher
`fetch_response` becomes a recursion over the finite sequence of responses
the transport would hand back on successive attempts; the per-Collection
raindrop cache becomes an association list from remote identifier to a
reference into an explicit heap of Raindrop objects, so that Python object
identity is the heap index; the generator body of `Collection.search`
becomes an event trace (page fetches, task submissions, yields) plus a
merge/insert state transformer; a two-thread interleaving machine models
the lock discipline of `create_or_update_raindrop_from_raindrop_dict`.
-/

namespace PyRaindrop

/-- An HTTP response as observed by `fetch_response`: the status code, the
optional value of the retry-after header (seconds), and an abstract body. -/
structure HttpResponse where
  status : Nat
  retryAfter : Option Nat
  body : Nat
deriving DecidableEq, Repr

/-- The success test of `fetch_response` (models.py lines 24-27):
the response headers contain no retry-after key and the status code is 200. -/
def isGood (r : HttpResponse) : Bool :=
  r.retryAfter == none && r.status == 200

/-- The seconds slept before the next attempt (models.py lines 30-39):
`wait = response.headers.get('retry-after')`, defaulting to 10 when the
header is absent, and the sleep is `int(wait) + 1`. -/
def waitSeconds (r : HttpResponse) : Nat :=
  (match r.retryAfter with
   | some w => w
   | none => 10) + 1

/-- The function `fetch_response` (models.py lines 17-39), embedded over the
finite sequence of responses successive attempts would receive: the while
loop returns the first response passing `isGood` and retries past every
other one; `none` models exhausting the sequence with the loop still
running (there is no attempt cap). -/
def fetch_response : List HttpResponse → Option HttpResponse
  | [] => none
  | r :: rs => if isGood r then some r else fetch_response rs

/-- The function `fetch_response` instrumented with its side effects: the
result, the total seconds slept, and the number of log lines printed
(one `print(msg)` per failed attempt, models.py lines 36-37). -/
def fetch_response_timed : List HttpResponse → Option HttpResponse × Nat × Nat
  | [] => (none, 0, 0)
  | r :: rs =>
    if isGood r then (some r, 0, 0)
    else
      let t := fetch_response_timed rs
      (t.1, waitSeconds r + t.2.1, 1 + t.2.2)

/-- The function `fetch_response` when the transport itself may raise: an
attempt either raises a transport exception (`Except.error`) or returns a
response. The body of the while loop contains no exception handler, so a
raised exception escapes immediately; only rate-limit classification is
performed on actual responses. -/
def fetch_response_exc : List (Except Nat HttpResponse) → Except Nat (Option HttpResponse)
  | [] => Except.ok none
  | Except.error e :: _ => Except.error e
  | Except.ok r :: rs =>
    if isGood r then Except.ok (some r) else fetch_response_exc rs

/-- Total sleep accumulated over a list of failed attempts. -/
def sumWaits (rs : List HttpResponse) : Nat :=
  rs.foldr (fun r acc => waitSeconds r + acc) 0

theorem sumWaits_append (l1 l2 : List HttpResponse) :
    sumWaits (l1 ++ l2) = sumWaits l1 + sumWaits l2 := by
  induction l1 with
  | nil => simp [sumWaits]
  | cons r rs ih =>
    simp [sumWaits, List.foldr] at ih ⊢
    omega

/-- The instrumented fetcher agrees with the plain one, and its sleep total
and log count are determined by the failed attempts preceding success. -/
theorem fetch_response_timed_eq (rs : List HttpResponse) :
    fetch_response_timed rs =
      (fetch_response rs,
       sumWaits (rs.takeWhile (fun r => !(isGood r))),
       (rs.takeWhile (fun r => !(isGood r))).length) := by
  induction rs with
  | nil => simp [fetch_response_timed, fetch_response, sumWaits]
  | cons r rest ih =>
    by_cases h : isGood r = true
    · simp [fetch_response_timed, fetch_response, List.takeWhile, h, sumWaits]
    · simp only [Bool.not_eq_true] at h
      simp [fetch_response_timed, fetch_response, List.takeWhile, h, ih, sumWaits]
      omega

theorem fetch_response_all_bad (rs : List HttpResponse)
    (h : ∀ r ∈ rs, isGood r = false) : fetch_response rs = none := by
  induction rs with
  | nil => rfl
  | cons r rest ih =>
    have hr := h r (List.mem_cons_self r rest)
    simp [fetch_response, hr]
    exact ih fun x hx => h x (List.mem_cons_of_mem r hx)

/-- C5: fetch_response hands a response back to its caller exactly when it
has status 200 and no retry-after header: a returned response always
passes isGood; when every attempt fails the loop never returns (no error
is ever surfaced); and success is returned no matter how many failed
attempts precede it (no maximum attempt count). -/
theorem C5_return_iff_success :
    (∀ rs r, fetch_response rs = some r → isGood r = true) ∧
    (∀ rs, (∀ r ∈ rs, isGood r = false) → fetch_response rs = none) ∧
    (∀ n b r, isGood b = false → isGood r = true →
      fetch_response (List.replicate n b ++ [r]) = some r) := by
  refine ⟨?_, fetch_response_all_bad, ?_⟩
  · intro rs
    induction rs with
    | nil => intro r h; simp [fetch_response] at h
    | cons x rest ih =>
      intro r h
      by_cases hx : isGood x = true
      · simp [fetch_response, hx] at h
        rw [← h]; exact hx
      · simp only [Bool.not_eq_true] at hx
        simp [fetch_response, hx] at h
        exact ih r h
  · intro n b r hb hr
    induction n with
    | zero => simp [fetch_response, hr]
    | succ k ih => simpa [fetch_response, List.replicate_succ, hb] using ih

/-- C5 witness: two rate-limited responses followed by a clean 200 make the
fetcher return the 200 response. -/
theorem C5_return_iff_success_witness :
    fetch_response (List.replicate 2 ⟨429, some 5, 0⟩ ++ [⟨200, none, 0⟩]) =
      some ⟨200, none, 0⟩ :=
  C5_return_iff_success.2.2 2 ⟨429, some 5, 0⟩ ⟨200, none, 0⟩ (by decide) (by decide)

/-- C6: on each retry the fetcher sleeps the server-specified wait plus one
second of margin, or 10 plus 1 when no retry-after value is present; over
a run whose failed attempts are l1 then r, the total time slept decomposes
attempt by attempt, so after a rate-limited response carrying wait value w
the fetcher does not return before at least w + 1 further seconds have
elapsed; and it prints exactly one log line per failed attempt, hence at
most one per retry. -/
theorem C6_wait_margin_and_log :
    (∀ (r : HttpResponse) (w : Nat), r.retryAfter = some w → waitSeconds r = w + 1) ∧
    (∀ r : HttpResponse, r.retryAfter = none → waitSeconds r = 10 + 1) ∧
    (∀ (l1 : List HttpResponse) (r : HttpResponse) (l2 : List HttpResponse),
      (∀ x ∈ l1, isGood x = false) → isGood r = false →
      (fetch_response_timed (l1 ++ r :: l2)).2.1 =
        sumWaits l1 + (waitSeconds r + (fetch_response_timed l2).2.1)) ∧
    (∀ (l1 : List HttpResponse) (r : HttpResponse) (l2 : List HttpResponse) (w : Nat),
      (∀ x ∈ l1, isGood x = false) → isGood r = false → r.retryAfter = some w →
      (fetch_response_timed (l1 ++ r :: l2)).2.1 ≥ w + 1) ∧
    (∀ rs : List HttpResponse,
      (fetch_response_timed rs).2.2 = (rs.takeWhile (fun r => !(isGood r))).length) := by
  have hdecomp : ∀ (l1 : List HttpResponse) (r : HttpResponse) (l2 : List HttpResponse),
      (∀ x ∈ l1, isGood x = false) → isGood r = false →
      (fetch_response_timed (l1 ++ r :: l2)).2.1 =
        sumWaits l1 + (waitSeconds r + (fetch_response_timed l2).2.1) := by
    intro l1 r l2 h1 hr
    induction l1 with
    | nil =>
      simp [fetch_response_timed, hr, sumWaits]
    | cons x rest ih =>
      have hx := h1 x (List.mem_cons_self x rest)
      have ih2 := ih fun y hy => h1 y (List.mem_cons_of_mem x hy)
      simp [fetch_response_timed, hx, List.cons_append, ih2, sumWaits, List.foldr]
      have : sumWaits rest = List.foldr (fun r acc => waitSeconds r + acc) 0 rest := rfl
      omega
  refine ⟨?_, ?_, hdecomp, ?_, ?_⟩
  · intro r w h; simp [waitSeconds, h]
  · intro r h; simp [waitSeconds, h]
  · intro l1 r l2 w h1 hr hw
    have hd := hdecomp l1 r l2 h1 hr
    have hws : waitSeconds r = w + 1 := by simp [waitSeconds, hw]
    omega
  · intro rs
    rw [fetch_response_timed_eq]

/-- C6 witness: a single rate-limited response with retry-after 7 followed
by a 200 costs at least 8 seconds of sleep before the fetcher returns. -/
theorem C6_wait_margin_and_log_witness :
    (fetch_response_timed ([] ++ ⟨429, some 7, 0⟩ :: [⟨200, none, 0⟩])).2.1 ≥ 7 + 1 :=
  C6_wait_margin_and_log.2.2.2.1 [] ⟨429, some 7, 0⟩ [⟨200, none, 0⟩] 7
    (by intro x hx; cases hx) (by decide) (by decide)

/-- The part of a raindrop JSON record that the cache logic inspects: the
remote identifier stored under the key _id, plus an abstract payload
standing for every other field of the record. -/
structure RRecord where
  rid : Nat
  payload : Nat
deriving DecidableEq, Repr

/-- A Raindrop object: the backing record last installed by update_dict
(models.py line 227) and the owned highlights list last rebuilt by
fetch_highlights (lines 285-298). -/
structure RObj where
  record : RRecord
  highlights : List Nat
deriving DecidableEq, Repr

/-- The heap of Raindrop objects of one Python process: the index of an
object in this list is its identity, so two references are the same object
exactly when they are the same index. -/
abbrev Heap := List RObj

/-- The _raindrops dict of a Collection (models.py line 85): an association
from remote identifier to the reference of a heap object. -/
abbrev Cache := List (Nat × Nat)

/-- Python dict lookup d.get(i) on the _raindrops dict. -/
def lookupRef : Cache → Nat → Option Nat
  | [], _ => none
  | (k, v) :: rest, i => if k = i then some v else lookupRef rest i

/-- Python dict assignment d[i] = ref on the _raindrops dict
(models.py line 200): the binding for i is overwritten or created. -/
def setRef (c : Cache) (i ref : Nat) : Cache :=
  (i, ref) :: c.filter (fun p => p.1 ≠ i)

/-- The body of create_or_update_raindrop_from_raindrop_dict (models.py
lines 165-174), run against the snapshot of the cache read under the lock
at line 167: a miss constructs a fresh Raindrop (a new heap object whose
record is the incoming one and whose highlights are freshly fetched from
the remote listing hl); a hit calls update_dict on the existing object,
replacing its record in place and re-fetching its highlights. Returns the
new heap and the reference of the raindrop the task returns. -/
def createOrUpdate (hl : Nat → List Nat) (snap : Cache) (heap : Heap)
    (r : RRecord) : Heap × Nat :=
  match lookupRef snap r.rid with
  | none => (heap ++ [⟨r, hl r.rid⟩], heap.length)
  | some ref => (heap.set ref ⟨r, hl r.rid⟩, ref)

/-- The worker tasks of one sequential search call: every task submitted at
models.py lines 190-195 runs createOrUpdate against the cache as it stood
when the call began, because the insertions of line 200 only happen in the
as_completed loop after the page loop has finished. Returns the final heap
and the (remote id, reference) pair produced by each task, in order. -/
def mergePhase (hl : Nat → List Nat) (snap : Cache) :
    Heap → List RRecord → Heap × List (Nat × Nat)
  | heap, [] => (heap, [])
  | heap, r :: rest =>
    let step := createOrUpdate hl snap heap r
    let tail := mergePhase hl snap step.1 rest
    (tail.1, (r.rid, step.2) :: tail.2)

/-- The as_completed loop of search (models.py lines 197-200) as it acts on
the _raindrops dict: each completed task's raindrop is stored under its
remote identifier. -/
def insertPhase : Cache → List (Nat × Nat) → Cache
  | c, [] => c
  | c, (i, ref) :: rest => insertPhase (setRef c i ref) rest

/-- One sequential call of Collection.search over the concatenation of the
fetched pages' items: run every merge task against the initial cache
snapshot, then record every produced raindrop in the _raindrops dict. The
third component lists the (remote id, reference) pairs yielded to the
caller, in order. -/
def searchCall (hl : Nat → List Nat) (heap : Heap) (cache : Cache)
    (items : List RRecord) : Heap × Cache × List (Nat × Nat) :=
  let merged := mergePhase hl cache heap items
  (merged.1, insertPhase cache merged.2, merged.2)

/-- A JSON record as the accessor code sees it: an association list from
string keys to string values. -/
abbrev JsonRec := List (String × String)

/-- Python dict lookup d.get(key) on a JSON record, returning None for a
missing key. -/
def dictGet : JsonRec → String → Option String
  | [], _ => none
  | (k, v) :: rest, key => if k = key then some v else dictGet rest key

/-- The accessor Highlight.color (models.py lines 322-324):
self._highlight_dict.get('color', 'yellow'). -/
def Highlight.color (d : JsonRec) : String :=
  (dictGet d "color").getD "yellow"

/-- The method Collection.__getitem__ (models.py lines 158-159):
self._raindrops.get(raindrop_id), a dict lookup defaulting to None. -/
def Collection.getItem (c : Cache) (i : Nat) : Option Nat :=
  lookupRef c i

/-- The method Raindrop.update_dict (models.py lines 226-228) together with
the fetch_highlights call it triggers, with the outcome of the highlight
GET given by fetchResult: the new record is installed first (line 227),
then fetch_highlights resets the highlights list to empty (line 286)
before the fetch; on success the fetched highlights fill the list, on a
transport fault the exception escapes with the list still empty. Returns
the state observable on the object afterwards, and the escaped fault. -/
def update_dict_run (_st : RObj) (newRec : RRecord)
    (fetchResult : Except Nat (List Nat)) : RObj × Option Nat :=
  let cleared : RObj := { record := newRec, highlights := [] }
  match fetchResult with
  | Except.ok hs => ({ cleared with highlights := hs }, none)
  | Except.error e => (cleared, some e)

/-- C8: a highlight record without a color field yields the fixed default
sentinel color yellow from the color accessor, and a record carrying the
field yields that value unchanged. -/
theorem C8_color_default :
    (∀ d : JsonRec, dictGet d "color" = none → Highlight.color d = "yellow") ∧
    (∀ (d : JsonRec) (v : String), dictGet d "color" = some v → Highlight.color d = v) := by
  constructor
  · intro d h; simp [Highlight.color, h]
  · intro d v h; simp [Highlight.color, h]

/-- C8 witness: a record with only text has color yellow; a record carrying
color blue keeps it. -/
theorem C8_color_default_witness :
    Highlight.color [("text", "abc")] = "yellow" ∧
    Highlight.color [("color", "blue"), ("text", "abc")] = "blue" :=
  ⟨C8_color_default.1 [("text", "abc")] (by decide),
   C8_color_default.2 [("color", "blue"), ("text", "abc")] "blue" (by decide)⟩

/-- C9: updating a Raindrop is not atomic with respect to transport faults:
when the highlight re-fetch triggered by update_dict raises, the caller
observes an object whose record is already the new snapshot and whose
highlights list is empty; in particular the previous highlights, when
nonempty, are discarded and not restored. -/
theorem C9_update_not_atomic :
    (∀ (st : RObj) (newRec : RRecord) (e : Nat),
      update_dict_run st newRec (Except.error e) = (⟨newRec, []⟩, some e)) ∧
    (∀ (st : RObj) (newRec : RRecord) (e : Nat), st.highlights ≠ [] →
      (update_dict_run st newRec (Except.error e)).1.highlights ≠ st.highlights) ∧
    (∀ (st : RObj) (newRec : RRecord) (hs : List Nat),
      update_dict_run st newRec (Except.ok hs) = (⟨newRec, hs⟩, none)) := by
  refine ⟨fun st newRec e => rfl, ?_, fun st newRec hs => rfl⟩
  intro st newRec e h
  simp only [update_dict_run]
  intro hc
  exact h hc.symm

/-- C9 witness: a raindrop holding one highlight, updated while the
highlight fetch faults, ends with the new record and no highlights. -/
theorem C9_update_not_atomic_witness :
    update_dict_run ⟨⟨1, 0⟩, [7]⟩ ⟨1, 5⟩ (Except.error 3) = (⟨⟨1, 5⟩, []⟩, some 3) ∧
    (update_dict_run ⟨⟨1, 0⟩, [7]⟩ ⟨1, 5⟩ (Except.error 3)).1.highlights ≠ [7] :=
  ⟨C9_update_not_atomic.1 ⟨⟨1, 0⟩, [7]⟩ ⟨1, 5⟩ 3,
   C9_update_not_atomic.2.1 ⟨⟨1, 0⟩, [7]⟩ ⟨1, 5⟩ 3 (by decide)⟩

theorem lookupRef_eq_none_iff (c : Cache) (i : Nat) :
    lookupRef c i = none ↔ i ∉ c.map Prod.fst := by
  induction c with
  | nil => simp [lookupRef]
  | cons p rest ih =>
    obtain ⟨k, v⟩ := p
    by_cases h : k = i
    · subst h; simp [lookupRef]
    · simp only [lookupRef, if_neg h, ih, List.map_cons, List.mem_cons]
      constructor
      · intro hni hor
        rcases hor with hik | hmem
        · exact h hik.symm
        · exact hni hmem
      · intro hn hmem
        exact hn (Or.inr hmem)

theorem lookupRef_mem (c : Cache) (i ref : Nat) (h : lookupRef c i = some ref) :
    (i, ref) ∈ c := by
  induction c with
  | nil => simp [lookupRef] at h
  | cons p rest ih =>
    obtain ⟨k, v⟩ := p
    by_cases hk : k = i
    · subst hk
      simp [lookupRef] at h
      subst h
      exact List.mem_cons_self _ _
    · simp [lookupRef, hk] at h
      exact List.mem_cons_of_mem _ (ih h)

/-- C10: indexing a Collection with an identifier absent from its raindrop
map returns None rather than raising, and indexing with a present
identifier returns the cached raindrop reference. -/
theorem C10_getitem_total :
    (∀ (c : Cache) (i : Nat), Collection.getItem c i = none ↔ i ∉ c.map Prod.fst) ∧
    (∀ (c : Cache) (i : Nat), i ∈ c.map Prod.fst →
      ∃ ref, Collection.getItem c i = some ref ∧ (i, ref) ∈ c) := by
  constructor
  · exact fun c i => lookupRef_eq_none_iff c i
  · intro c i h
    cases hc : lookupRef c i with
    | none => exact absurd ((lookupRef_eq_none_iff c i).mp hc) (by simpa using h)
    | some ref => exact ⟨ref, hc, lookupRef_mem c i ref hc⟩

/-- C10 witness: on the map binding 4 to 0, identifier 9 gives None and
identifier 4 gives its reference. -/
theorem C10_getitem_total_witness :
    (Collection.getItem [(4, 0)] 9 = none ↔ 9 ∉ ([(4, 0)] : Cache).map Prod.fst) ∧
    ∃ ref, Collection.getItem [(4, 0)] 4 = some ref ∧ (4, ref) ∈ ([(4, 0)] : Cache) :=
  ⟨C10_getitem_total.1 [(4, 0)] 9, C10_getitem_total.2 [(4, 0)] 4 (by decide)⟩

theorem lookupRef_filter_ne (c : Cache) (k i : Nat) (h : k ≠ i) :
    lookupRef (c.filter (fun p => p.1 ≠ k)) i = lookupRef c i := by
  induction c with
  | nil => rfl
  | cons p rest ih =>
    obtain ⟨a, b⟩ := p
    rw [List.filter_cons]
    by_cases ha : a = k
    · rw [if_neg (by simp [ha])]
      rw [ih]
      have hai : ¬(a = i) := by rw [ha]; exact h
      show _ = if a = i then some b else lookupRef rest i
      rw [if_neg hai]
    · rw [if_pos (by simp [ha])]
      show (if a = i then some b else lookupRef (rest.filter (fun p => p.1 ≠ k)) i) =
        if a = i then some b else lookupRef rest i
      by_cases hai : a = i
      · rw [if_pos hai, if_pos hai]
      · rw [if_neg hai, if_neg hai]
        exact ih

theorem lookupRef_setRef (c : Cache) (k v i : Nat) :
    lookupRef (setRef c k v) i = if k = i then some v else lookupRef c i := by
  show lookupRef ((k, v) :: c.filter (fun p => p.1 ≠ k)) i = _
  by_cases h : k = i
  · show (if k = i then some v else _) = _
    rw [if_pos h, if_pos h]
  · show (if k = i then some v else lookupRef (c.filter (fun p => p.1 ≠ k)) i) = _
    rw [if_neg h, if_neg h]
    exact lookupRef_filter_ne c k i h

/-- The binding the as_completed loop leaves for identifier i: the value of
the last inserted pair whose key is i. -/
def lastRef : List (Nat × Nat) → Nat → Option Nat
  | [], _ => none
  | (k, v) :: rest, i =>
    match lastRef rest i with
    | some q => some q
    | none => if k = i then some v else none

theorem lookupRef_insertPhase (ps : List (Nat × Nat)) (c : Cache) (i : Nat) :
    lookupRef (insertPhase c ps) i =
      match lastRef ps i with
      | some q => some q
      | none => lookupRef c i := by
  induction ps generalizing c with
  | nil => rfl
  | cons p rest ih =>
    obtain ⟨k, v⟩ := p
    show lookupRef (insertPhase (setRef c k v) rest) i = _
    rw [ih]
    cases hrest : lastRef rest i with
    | some q => simp [lastRef, hrest]
    | none =>
      simp only [lastRef, hrest]
      by_cases hk : k = i
      · simp [lookupRef_setRef, hk]
      · simp [lookupRef_setRef, hk]

theorem lastRef_mem (ps : List (Nat × Nat)) (i q : Nat)
    (h : lastRef ps i = some q) : (i, q) ∈ ps := by
  induction ps with
  | nil => simp [lastRef] at h
  | cons p rest ih =>
    obtain ⟨k, v⟩ := p
    cases hrest : lastRef rest i with
    | some q' =>
      simp only [lastRef, hrest] at h
      cases h
      exact List.mem_cons_of_mem _ (ih hrest)
    | none =>
      simp only [lastRef, hrest] at h
      by_cases hk : k = i
      · rw [if_pos hk] at h
        cases h
        subst hk
        exact List.mem_cons_self _ _
      · rw [if_neg hk] at h
        cases h

theorem lastRef_isSome (ps : List (Nat × Nat)) (i : Nat)
    (h : i ∈ ps.map Prod.fst) : (lastRef ps i).isSome := by
  induction ps with
  | nil => simp at h
  | cons p rest ih =>
    obtain ⟨k, v⟩ := p
    cases hrest : lastRef rest i with
    | some q => simp [lastRef, hrest]
    | none =>
      simp only [List.map_cons, List.mem_cons] at h
      rcases h with hk | hmem
      · subst hk
        simp [lastRef, hrest]
      · have := ih hmem
        rw [hrest] at this
        simp at this

theorem key_eq_of_mem_val_nodup (ps : List (Nat × Nat))
    (h : (ps.map Prod.snd).Nodup) {i j q : Nat}
    (hi : (i, q) ∈ ps) (hj : (j, q) ∈ ps) : i = j := by
  induction ps with
  | nil => simp at hi
  | cons p rest ih =>
    obtain ⟨k, v⟩ := p
    simp only [List.map_cons, List.nodup_cons] at h
    rcases List.mem_cons.mp hi with hih | hit
    · rcases List.mem_cons.mp hj with hjh | hjt
      · rw [Prod.mk.injEq] at hih hjh
        omega
      · exfalso
        cases hih
        exact h.1 (by simpa using List.mem_map_of_mem Prod.snd hjt)
    · rcases List.mem_cons.mp hj with hjh | hjt
      · exfalso
        cases hjh
        exact h.1 (by simpa using List.mem_map_of_mem Prod.snd hit)
      · exact ih h.2 hit hjt

theorem mergePhase_all_hit (hl : Nat → List Nat) (snap : Cache)
    (items : List RRecord) :
    ∀ heap : Heap, (∀ r ∈ items, (lookupRef snap r.rid).isSome) →
      (mergePhase hl snap heap items).1.length = heap.length ∧
      (mergePhase hl snap heap items).2 =
        items.map (fun r => (r.rid, (lookupRef snap r.rid).getD 0)) := by
  induction items with
  | nil => intro heap _; simp [mergePhase]
  | cons r rest ih =>
    intro heap h
    have hr := h r (List.mem_cons_self r rest)
    cases hq : lookupRef snap r.rid with
    | none => rw [hq] at hr; simp at hr
    | some q =>
      have step : createOrUpdate hl snap heap r = (heap.set q ⟨r, hl r.rid⟩, q) := by
        simp [createOrUpdate, hq]
      have ih2 := ih (heap.set q ⟨r, hl r.rid⟩)
        (fun x hx => h x (List.mem_cons_of_mem r hx))
      constructor
      · show (mergePhase hl snap (createOrUpdate hl snap heap r).1 rest).1.length = _
        rw [step]
        simpa [List.length_set] using ih2.1
      · show (r.rid, (createOrUpdate hl snap heap r).2) ::
            (mergePhase hl snap (createOrUpdate hl snap heap r).1 rest).2 = _
        rw [step]
        simp [ih2.2, hq]

theorem mergePhase_frame (hl : Nat → List Nat) (snap : Cache)
    (items : List RRecord) :
    ∀ (heap : Heap) (q : Nat),
      (∀ r ∈ items, ∃ p, lookupRef snap r.rid = some p ∧ p ≠ q) →
      (mergePhase hl snap heap items).1[q]? = heap[q]? := by
  induction items with
  | nil => intro heap q _; rfl
  | cons r rest ih =>
    intro heap q h
    obtain ⟨p, hp, hpq⟩ := h r (List.mem_cons_self r rest)
    have step : createOrUpdate hl snap heap r = (heap.set p ⟨r, hl r.rid⟩, p) := by
      simp [createOrUpdate, hp]
    show (mergePhase hl snap (createOrUpdate hl snap heap r).1 rest).1[q]? = _
    rw [step]
    rw [ih (heap.set p ⟨r, hl r.rid⟩) q
      (fun x hx => h x (List.mem_cons_of_mem r hx))]
    exact List.getElem?_set_ne hpq

theorem mergePhase_content (hl : Nat → List Nat) (snap : Cache)
    (items : List RRecord) :
    ∀ heap : Heap,
      (∀ r ∈ items, ∃ q, lookupRef snap r.rid = some q ∧ q < heap.length) →
      (∀ i j q, lookupRef snap i = some q → lookupRef snap j = some q → i = j) →
      (items.map RRecord.rid).Nodup →
      ∀ r ∈ items, ∃ q, lookupRef snap r.rid = some q ∧
        (mergePhase hl snap heap items).1[q]? = some ⟨r, hl r.rid⟩ := by
  induction items with
  | nil => intro heap _ _ _ r hr; simp at hr
  | cons r0 rest ih =>
    intro heap hsnap hinj hnd r hr
    obtain ⟨q0, hq0, hq0lt⟩ := hsnap r0 (List.mem_cons_self r0 rest)
    have step : createOrUpdate hl snap heap r0 = (heap.set q0 ⟨r0, hl r0.rid⟩, q0) := by
      simp [createOrUpdate, hq0]
    have hmp : mergePhase hl snap heap (r0 :: rest) =
        ((mergePhase hl snap (heap.set q0 ⟨r0, hl r0.rid⟩) rest).1,
         (r0.rid, q0) :: (mergePhase hl snap (heap.set q0 ⟨r0, hl r0.rid⟩) rest).2) := by
      show ((mergePhase hl snap (createOrUpdate hl snap heap r0).1 rest).1,
        (r0.rid, (createOrUpdate hl snap heap r0).2) ::
          (mergePhase hl snap (createOrUpdate hl snap heap r0).1 rest).2) = _
      rw [step]
    simp only [List.map_cons, List.nodup_cons] at hnd
    rcases List.mem_cons.mp hr with hrh | hrt
    · subst hrh
      refine ⟨q0, hq0, ?_⟩
      rw [hmp]
      have hframe : (mergePhase hl snap (heap.set q0 ⟨r, hl r.rid⟩) rest).1[q0]? =
          (heap.set q0 ⟨r, hl r.rid⟩)[q0]? := by
        apply mergePhase_frame
        intro x hx
        obtain ⟨p, hp, _⟩ := hsnap x (List.mem_cons_of_mem r hx)
        refine ⟨p, hp, fun hpq => ?_⟩
        subst hpq
        have : x.rid = r.rid := hinj x.rid r.rid p hp hq0
        exact hnd.1 (this ▸ List.mem_map_of_mem RRecord.rid hx)
      simpa [hframe] using List.getElem?_set_eq_of_lt _ hq0lt
    · have hsnap2 : ∀ x ∈ rest, ∃ q, lookupRef snap x.rid = some q ∧
          q < (heap.set q0 ⟨r0, hl r0.rid⟩).length := by
        intro x hx
        obtain ⟨q, hq, hqlt⟩ := hsnap x (List.mem_cons_of_mem r0 hx)
        exact ⟨q, hq, by simpa [List.length_set] using hqlt⟩
      obtain ⟨q, hq, hget⟩ := ih (heap.set q0 ⟨r0, hl r0.rid⟩) hsnap2 hinj hnd.2 r hrt
      refine ⟨q, hq, ?_⟩
      rw [hmp]
      exact hget

theorem mergePhase_empty_snap (hl : Nat → List Nat) (items : List RRecord) :
    ∀ heap : Heap,
      mergePhase hl [] heap items =
        (heap ++ items.map (fun r => RObj.mk r (hl r.rid)),
         (items.map RRecord.rid).zip (List.range' heap.length items.length)) := by
  induction items with
  | nil => intro heap; simp [mergePhase]
  | cons r rest ih =>
    intro heap
    have step : createOrUpdate hl [] heap r = (heap ++ [⟨r, hl r.rid⟩], heap.length) := by
      simp [createOrUpdate, lookupRef]
    show ((mergePhase hl [] (createOrUpdate hl [] heap r).1 rest).1,
      (r.rid, (createOrUpdate hl [] heap r).2) ::
        (mergePhase hl [] (createOrUpdate hl [] heap r).1 rest).2) = _
    rw [step]
    dsimp only
    rw [ih]
    simp [List.range'_succ, List.append_assoc]

theorem lookupRef_insertPhase_id (ps : List (Nat × Nat)) :
    ∀ c : Cache, (∀ p ∈ ps, lookupRef c p.1 = some p.2) →
      ∀ i, lookupRef (insertPhase c ps) i = lookupRef c i := by
  induction ps with
  | nil => intro c _ i; rfl
  | cons p rest ih =>
    obtain ⟨k, v⟩ := p
    intro c h i
    have hk := h (k, v) (List.mem_cons_self _ _)
    show lookupRef (insertPhase (setRef c k v) rest) i = _
    have hrest : ∀ p ∈ rest, lookupRef (setRef c k v) p.1 = some p.2 := by
      intro x hx
      rw [lookupRef_setRef]
      by_cases hxk : k = x.1
      · rw [if_pos hxk]
        have := h x (List.mem_cons_of_mem _ hx)
        rw [← hxk] at this
        rw [hk] at this
        exact this
      · rw [if_neg hxk]
        exact h x (List.mem_cons_of_mem _ hx)
    rw [ih (setRef c k v) hrest i, lookupRef_setRef]
    by_cases hki : k = i
    · subst hki; rw [if_pos rfl]; exact hk.symm
    · rw [if_neg hki]

/-- C1: across two sequential search calls on one Collection, every item of
the second call whose identifier is already present in the raindrop cache
is handled by update-in-place: the second call allocates no new Raindrop
object, the cache binds every identifier to the same object reference as
before, every yielded raindrop is exactly the cached object, and that
object's slot now holds the new backing record with its highlights freshly
re-fetched from the remote highlight listing. -/
theorem C1_search_identity (hl : Nat → List Nat) (items1 items2 : List RRecord)
    (heap1 heap2 : Heap) (cache1 cache2 : Cache) (ys1 ys2 : List (Nat × Nat))
    (hsub : ∀ r ∈ items2, r.rid ∈ items1.map RRecord.rid)
    (hnd : (items2.map RRecord.rid).Nodup)
    (e1 : searchCall hl [] [] items1 = (heap1, cache1, ys1))
    (e2 : searchCall hl heap1 cache1 items2 = (heap2, cache2, ys2)) :
    heap2.length = heap1.length ∧
    (∀ i, lookupRef cache2 i = lookupRef cache1 i) ∧
    (∀ p ∈ ys2, lookupRef cache1 p.1 = some p.2) ∧
    (∀ r ∈ items2, ∃ ref,
      lookupRef cache1 r.rid = some ref ∧ lookupRef cache2 r.rid = some ref ∧
      heap2[ref]? = some (RObj.mk r (hl r.rid))) := by
  have hm1 := mergePhase_empty_snap hl items1 []
  have e1' : searchCall hl [] [] items1 =
      (items1.map (fun r => RObj.mk r (hl r.rid)),
       insertPhase []
         ((items1.map RRecord.rid).zip (List.range' 0 items1.length)),
       (items1.map RRecord.rid).zip (List.range' 0 items1.length)) := by
    unfold searchCall
    rw [hm1]
    simp
  rw [e1'] at e1
  rw [Prod.mk.injEq, Prod.mk.injEq] at e1
  obtain ⟨hA, hB, hC⟩ := e1
  set pairs1 := (items1.map RRecord.rid).zip (List.range' 0 items1.length) with hp1
  have hlen_eq : (items1.map RRecord.rid).length = (List.range' 0 items1.length).length := by
    simp
  have fact_keys : pairs1.map Prod.fst = items1.map RRecord.rid :=
    List.map_fst_zip _ _ (le_of_eq hlen_eq)
  have fact_vals : pairs1.map Prod.snd = List.range' 0 items1.length :=
    List.map_snd_zip _ _ (le_of_eq hlen_eq.symm)
  have fact_valnd : (pairs1.map Prod.snd).Nodup := by
    rw [fact_vals]; exact List.nodup_range' 0 items1.length
  have lookup1 : ∀ i, lookupRef cache1 i = lastRef pairs1 i := by
    intro i
    rw [← hB, lookupRef_insertPhase]
    cases lastRef pairs1 i <;> rfl
  have hheap1len : heap1.length = items1.length := by rw [← hA]; simp
  have hsnap2 : ∀ r ∈ items2, ∃ q, lookupRef cache1 r.rid = some q ∧ q < heap1.length := by
    intro r hr
    have hk : r.rid ∈ pairs1.map Prod.fst := by rw [fact_keys]; exact hsub r hr
    have hs := lastRef_isSome pairs1 r.rid hk
    cases hq : lastRef pairs1 r.rid with
    | none => rw [hq] at hs; simp at hs
    | some q =>
      refine ⟨q, by rw [lookup1, hq], ?_⟩
      have hmem := lastRef_mem pairs1 r.rid q hq
      have hq2 : q ∈ List.range' 0 items1.length := (List.of_mem_zip hmem).2
      have := (List.mem_range'_1.mp hq2).2
      omega
  have hinj : ∀ i j q, lookupRef cache1 i = some q → lookupRef cache1 j = some q → i = j := by
    intro i j q hiq hjq
    rw [lookup1] at hiq hjq
    exact key_eq_of_mem_val_nodup pairs1 fact_valnd
      (lastRef_mem _ _ _ hiq) (lastRef_mem _ _ _ hjq)
  have hm2 := mergePhase_all_hit hl cache1 items2 heap1
    (fun r hr => by obtain ⟨q, hq, _⟩ := hsnap2 r hr; rw [hq]; rfl)
  have e2' : heap2 = (mergePhase hl cache1 heap1 items2).1 ∧
      cache2 = insertPhase cache1 (mergePhase hl cache1 heap1 items2).2 ∧
      ys2 = (mergePhase hl cache1 heap1 items2).2 := by
    unfold searchCall at e2
    rw [Prod.mk.injEq, Prod.mk.injEq] at e2
    exact ⟨e2.1.symm, e2.2.1.symm, e2.2.2.symm⟩
  obtain ⟨hheap2, hcache2, hys2⟩ := e2'
  have hysgood : ∀ p ∈ ys2, lookupRef cache1 p.1 = some p.2 := by
    intro p hp
    rw [hys2, hm2.2] at hp
    obtain ⟨r, hr, rfl⟩ := List.mem_map.mp hp
    obtain ⟨q, hq, _⟩ := hsnap2 r hr
    simp [hq]
  have hlookup2 : ∀ i, lookupRef cache2 i = lookupRef cache1 i := by
    rw [hcache2]
    refine lookupRef_insertPhase_id _ cache1 ?_
    intro p hp
    apply hysgood
    rw [hys2]
    exact hp
  refine ⟨?_, hlookup2, hysgood, ?_⟩
  · rw [hheap2, hm2.1]
  · intro r hr
    obtain ⟨q, hq, hget⟩ :=
      mergePhase_content hl cache1 items2 heap1 hsnap2 hinj hnd r hr
    refine ⟨q, hq, by rw [hlookup2]; exact hq, ?_⟩
    rw [hheap2]
    exact hget

/-- C1 witness: a first search materializing identifiers 1 and 2, then a
second search re-encountering identifier 1 with a changed record: the heap
does not grow, the cache bindings are unchanged, and slot 0 now holds the
updated record with re-fetched highlights. -/
theorem C1_search_identity_witness :
    ([RObj.mk ⟨1, 9⟩ [1], RObj.mk ⟨2, 0⟩ [2]] : Heap).length =
      ([RObj.mk ⟨1, 0⟩ [1], RObj.mk ⟨2, 0⟩ [2]] : Heap).length ∧
    (∀ i, lookupRef [(1, 0), (2, 1)] i = lookupRef [(2, 1), (1, 0)] i) ∧
    (∀ p ∈ ([(1, 0)] : List (Nat × Nat)), lookupRef [(2, 1), (1, 0)] p.1 = some p.2) ∧
    (∀ r ∈ [(⟨1, 9⟩ : RRecord)], ∃ ref,
      lookupRef [(2, 1), (1, 0)] r.rid = some ref ∧
      lookupRef [(1, 0), (2, 1)] r.rid = some ref ∧
      ([RObj.mk ⟨1, 9⟩ [1], RObj.mk ⟨2, 0⟩ [2]] : Heap)[ref]? =
        some (RObj.mk r ((fun i => [i]) r.rid))) :=
  C1_search_identity (fun i => [i]) [⟨1, 0⟩, ⟨2, 0⟩] [⟨1, 9⟩]
    [RObj.mk ⟨1, 0⟩ [1], RObj.mk ⟨2, 0⟩ [2]] [RObj.mk ⟨1, 9⟩ [1], RObj.mk ⟨2, 0⟩ [2]]
    [(2, 1), (1, 0)] [(1, 0), (2, 1)]
    [(1, 0), (2, 1)] [(1, 0)]
    (by decide) (by decide) rfl rfl

/-- The page count computed at models.py line 178:
math.ceil(self.count / MAX_ITEMS_PER_PAGE), the exact rational ceiling of
count divided by the page size. -/
def numPages (count P : Nat) : Nat :=
  if count % P = 0 then count / P else count / P + 1

/-- Observable events of one run of the generator body of Collection.search:
a blocking page fetch performed by the calling thread (models.py line 179),
the submission of one worker task per item of a fetched page (line 190),
and the yield of one raindrop to the consumer (line 201). -/
inductive SearchEvent where
  | fetchPage (page : Nat)
  | submitTask (r : RRecord)
  | yieldItem (rid : Nat)
deriving DecidableEq, Repr

def isFetch : SearchEvent → Bool
  | SearchEvent.fetchPage _ => true
  | _ => false

def isYield : SearchEvent → Bool
  | SearchEvent.yieldItem _ => true
  | _ => false

/-- The page loop of Collection.search (models.py lines 178-195), with
pagesLeft pages still to go, p the next page index, and futures the tasks
submitted so far: each iteration performs one fetch_response on the
calling thread and then submits one worker task per item of the returned
page. Returns the events emitted by the loop and the final futures list. -/
def pageLoop (pageItems : Nat → List RRecord) :
    Nat → Nat → List RRecord → List SearchEvent × List RRecord
  | 0, _, futures => ([], futures)
  | pagesLeft + 1, p, futures =>
    let tail := pageLoop pageItems pagesLeft (p + 1) (futures ++ pageItems p)
    (SearchEvent.fetchPage p :: (pageItems p).map SearchEvent.submitTask ++ tail.1,
     tail.2)

/-- The generator body of Collection.search as an event trace: the page
loop runs to completion and only then does the as_completed loop (models.py
lines 197-201) yield one raindrop per submitted task. The yield order of a
real run is the tasks' completion order, a permutation of this submission
order, so only counting and precedence facts are read off this trace. -/
def searchTrace (count P : Nat) (pageItems : Nat → List RRecord) : List SearchEvent :=
  let run := pageLoop pageItems (numPages count P) 0 []
  run.1 ++ run.2.map (fun r => SearchEvent.yieldItem r.rid)

theorem pageLoop_closed_form (pageItems : Nat → List RRecord) :
    ∀ (n p : Nat) (fs : List RRecord),
      pageLoop pageItems n p fs =
        (((List.range' p n).map
            (fun q => SearchEvent.fetchPage q ::
              (pageItems q).map SearchEvent.submitTask)).flatten,
         fs ++ ((List.range' p n).map pageItems).flatten) := by
  intro n
  induction n with
  | zero => intro p fs; simp [pageLoop]
  | succ k ih =>
    intro p fs
    show (SearchEvent.fetchPage p :: (pageItems p).map SearchEvent.submitTask ++
        (pageLoop pageItems k (p + 1) (fs ++ pageItems p)).1,
      (pageLoop pageItems k (p + 1) (fs ++ pageItems p)).2) = _
    rw [ih]
    simp [List.range'_succ]

theorem filter_isFetch_submits (l : List RRecord) :
    (l.map SearchEvent.submitTask).filter isFetch = [] := by
  induction l with
  | nil => rfl
  | cons r rest ih => simp [List.filter_cons, isFetch, ih]

theorem filter_isFetch_blocks (pageItems : Nat → List RRecord) (ps : List Nat) :
    (((ps.map (fun q => SearchEvent.fetchPage q ::
        (pageItems q).map SearchEvent.submitTask)).flatten).filter isFetch).length =
      ps.length := by
  induction ps with
  | nil => rfl
  | cons p rest ih =>
    rw [List.map_cons, List.flatten_cons, List.filter_append, List.length_append, ih]
    have hblock : ((SearchEvent.fetchPage p ::
        (pageItems p).map SearchEvent.submitTask).filter isFetch) =
        [SearchEvent.fetchPage p] := by
      rw [List.filter_cons]
      simp [isFetch, filter_isFetch_submits]
    rw [hblock]
    simp [Nat.add_comm]

theorem count_yield_map (l : List RRecord) (i : Nat) :
    ((l.map (fun r => SearchEvent.yieldItem r.rid)).count (SearchEvent.yieldItem i)) =
      ((l.map RRecord.rid).count i) := by
  induction l with
  | nil => rfl
  | cons r rest ih =>
    simp only [List.map_cons, List.count_cons, ih]
    by_cases h : r.rid = i
    · simp [h]
    · simp [h, SearchEvent.yieldItem.injEq]

theorem no_yield_in_blocks (pageItems : Nat → List RRecord) (ps : List Nat) :
    ∀ e ∈ ((ps.map (fun q => SearchEvent.fetchPage q ::
        (pageItems q).map SearchEvent.submitTask)).flatten), isYield e = false := by
  induction ps with
  | nil => intro e he; simp at he
  | cons p rest ih =>
    intro e he
    rw [List.map_cons, List.flatten_cons] at he
    rcases List.mem_append.mp he with hL | hR
    · rcases List.mem_cons.mp hL with h | h
      · subst h; rfl
      · obtain ⟨r, _, rfl⟩ := List.mem_map.mp h
        rfl
    · exact ih e hR

theorem numPages_is_ceil (count P : Nat) (hP : 0 < P) :
    count ≤ numPages count P * P ∧ numPages count P * P < count + P := by
  have hdm := Nat.div_add_mod count P
  have hr : count % P < P := Nat.mod_lt count hP
  unfold numPages
  by_cases h : count % P = 0
  · rw [if_pos h, Nat.mul_comm]
    omega
  · rw [if_neg h]
    have hexp : (count / P + 1) * P = P * (count / P) + P := by ring
    omega

theorem searchTrace_closed_form (count P : Nat) (pageItems : Nat → List RRecord) :
    searchTrace count P pageItems =
      ((List.range' 0 (numPages count P)).map
        (fun q => SearchEvent.fetchPage q ::
          (pageItems q).map SearchEvent.submitTask)).flatten ++
      (((List.range' 0 (numPages count P)).map pageItems).flatten).map
        (fun r => SearchEvent.yieldItem r.rid) := by
  unfold searchTrace
  rw [pageLoop_closed_form]
  simp

/-- C2: with a positive page size P, one search call on a collection of
declared count C performs exactly numPages C P page fetches, where
numPages C P is the exact ceiling of C divided by P (the least page count
covering C items); the yield events deliver exactly the items of the
fetched pages, each occurrence exactly once per call; and a declared count
of 0 produces an empty trace: no page fetch is issued and nothing is
yielded. -/
theorem C2_page_count_and_yields (count P : Nat) (pageItems : Nat → List RRecord)
    (hP : 0 < P) :
    (((searchTrace count P pageItems).filter isFetch).length = numPages count P ∧
      count ≤ numPages count P * P ∧ numPages count P * P < count + P) ∧
    (∀ i : Nat,
      ((searchTrace count P pageItems).count (SearchEvent.yieldItem i)) =
        ((((List.range' 0 (numPages count P)).map pageItems).flatten).map RRecord.rid).count i) ∧
    (count = 0 → searchTrace count P pageItems = []) := by
  have hceil := numPages_is_ceil count P hP
  have hclosed := searchTrace_closed_form count P pageItems
  refine ⟨⟨?_, hceil.1, hceil.2⟩, ?_, ?_⟩
  · rw [hclosed, List.filter_append, List.length_append, filter_isFetch_blocks]
    have : (((((List.range' 0 (numPages count P)).map pageItems).flatten).map
        (fun r => SearchEvent.yieldItem r.rid)).filter isFetch) = [] := by
      rw [List.filter_eq_nil_iff]
      intro e he
      obtain ⟨r, _, rfl⟩ := List.mem_map.mp he
      simp [isFetch]
    rw [this]
    simp
  · intro i
    rw [hclosed, List.count_append]
    have hblk : ((List.range' 0 (numPages count P)).map
        (fun q => SearchEvent.fetchPage q ::
          (pageItems q).map SearchEvent.submitTask)).flatten.count
        (SearchEvent.yieldItem i) = 0 := by
      rw [List.count_eq_zero]
      intro hmem
      have := no_yield_in_blocks pageItems (List.range' 0 (numPages count P))
        (SearchEvent.yieldItem i) hmem
      simp [isYield] at this
    rw [hblk, count_yield_map]
    simp
  · intro h0
    subst h0
    rw [hclosed]
    have : numPages 0 P = 0 := by simp [numPages]
    rw [this]
    simp

/-- C2 witness: count 3 with page size 2 issues exactly two page fetches. -/
theorem C2_page_count_and_yields_witness :
    ((searchTrace 3 2 (fun p => [RRecord.mk p 0])).filter isFetch).length =
      numPages 3 2 :=
  (C2_page_count_and_yields 3 2 (fun p => [RRecord.mk p 0]) (by decide)).1.1

/-- C4 counterexample: with two pages of one item each, every page fetch of
the run precedes the first yield — by the time any raindrop is yielded,
all numPages 2 1 = 2 fetches have already happened, although two items are
yielded — so a page's items are never yielded before later pages have been
fetched, contrary to the claim. -/
theorem C4_counterexample :
    (List.countP isFetch ((searchTrace 2 1 (fun p => [RRecord.mk p 0])).takeWhile
      (fun e => !(isYield e))) = numPages 2 1) ∧
    List.countP isYield (searchTrace 2 1 (fun p => [RRecord.mk p 0])) = 2 := by
  decide

/-- C4 amended: search fetches its pages sequentially on the calling
thread; immediately after each page fetch it submits one worker-pool merge
task per item of that page (the pool, bounded by max_threads, runs the
get-or-create merges concurrently); and raindrops are yielded to the
caller only after every page has been fetched, one yield per submitted
task, in task completion order. The trace is the page blocks in page
order, none of which yields, followed by the yields. -/
theorem C4_sequential_fetch_then_yield (count P : Nat)
    (pageItems : Nat → List RRecord) :
    searchTrace count P pageItems =
      ((List.range' 0 (numPages count P)).map
        (fun q => SearchEvent.fetchPage q ::
          (pageItems q).map SearchEvent.submitTask)).flatten ++
      (((List.range' 0 (numPages count P)).map pageItems).flatten).map
        (fun r => SearchEvent.yieldItem r.rid) ∧
    (∀ e ∈ ((List.range' 0 (numPages count P)).map
        (fun q => SearchEvent.fetchPage q ::
          (pageItems q).map SearchEvent.submitTask)).flatten, isYield e = false) :=
  ⟨searchTrace_closed_form count P pageItems,
   no_yield_in_blocks pageItems (List.range' 0 (numPages count P))⟩

/-- The as_completed loop of search (models.py lines 197-201) when worker
tasks may have raised: each future either holds the (remote id, reference)
of a merged raindrop or a raised exception; future.result() at line 198
re-raises the latter, aborting the loop, while every earlier future's
raindrop has already been stored into the _raindrops dict. Returns the
cache when the loop ends and the escaped exception, if any. -/
def yieldLoop : Cache → List (Except Nat (Nat × Nat)) → Cache × Option Nat
  | c, [] => (c, none)
  | c, Except.ok (i, ref) :: rest => yieldLoop (setRef c i ref) rest
  | c, Except.error e :: _ => (c, some e)

theorem yieldLoop_fault (ps : List (Nat × Nat)) :
    ∀ (c : Cache) (e : Nat) (rest : List (Except Nat (Nat × Nat))),
      yieldLoop c (ps.map Except.ok ++ Except.error e :: rest) =
        (insertPhase c ps, some e) := by
  induction ps with
  | nil => intro c e rest; rfl
  | cons p rest0 ih =>
    obtain ⟨i, ref⟩ := p
    intro c e rest
    show yieldLoop (setRef c i ref) (rest0.map Except.ok ++ Except.error e :: rest) = _
    exact ih (setRef c i ref) e rest

theorem insertPhase_keeps_keys (ps : List (Nat × Nat)) (c : Cache) (i : Nat)
    (h : lookupRef c i ≠ none) : lookupRef (insertPhase c ps) i ≠ none := by
  rw [lookupRef_insertPhase]
  cases lastRef ps i with
  | some q => simp
  | none => simpa using h

/-- C7: transport exceptions are caught neither by the fetcher nor by the
search loop: an exception raised on any fetch attempt escapes
fetch_response immediately (only actual rate-limited responses are
retried past), and an exception re-raised by future.result() escapes the
as_completed loop at the point the sequence is consumed, with every
raindrop merged before the fault still recorded in the cache and every
binding the cache held beforehand still present — no rollback and no
partial-result discard. -/
theorem C7_fault_propagation :
    (∀ (l : List (Except Nat HttpResponse)) (e : Nat)
        (rest : List (Except Nat HttpResponse)),
      (∀ x ∈ l, ∃ r, x = Except.ok r ∧ isGood r = false) →
      fetch_response_exc (l ++ Except.error e :: rest) = Except.error e) ∧
    (∀ (c : Cache) (ps : List (Nat × Nat)) (e : Nat)
        (rest : List (Except Nat (Nat × Nat))),
      yieldLoop c (ps.map Except.ok ++ Except.error e :: rest) =
        (insertPhase c ps, some e)) ∧
    (∀ (ps : List (Nat × Nat)) (c : Cache) (i : Nat),
      lookupRef c i ≠ none → lookupRef (insertPhase c ps) i ≠ none) := by
  refine ⟨?_, fun c ps e rest => yieldLoop_fault ps c e rest, insertPhase_keeps_keys⟩
  intro l e rest h
  induction l with
  | nil => rfl
  | cons x tail ih =>
    obtain ⟨r, rfl, hbad⟩ := h x (List.mem_cons_self x tail)
    show fetch_response_exc (Except.ok r :: (tail ++ Except.error e :: rest)) = _
    have : fetch_response_exc (Except.ok r :: (tail ++ Except.error e :: rest)) =
        fetch_response_exc (tail ++ Except.error e :: rest) := by
      simp [fetch_response_exc, hbad]
    rw [this]
    exact ih fun x hx => h x (List.mem_cons_of_mem _ hx)

/-- C7 witness: one rate-limited attempt then a raised transport exception
makes the fetcher raise; a search whose second task raised keeps the first
task's merge and the pre-existing binding in the cache. -/
theorem C7_fault_propagation_witness :
    fetch_response_exc ([Except.ok ⟨429, some 3, 0⟩] ++ Except.error 7 :: []) =
      Except.error 7 ∧
    yieldLoop [(2, 1)] ([(1, 0)].map Except.ok ++ Except.error 7 :: []) =
      (insertPhase [(2, 1)] [(1, 0)], some 7) ∧
    lookupRef (insertPhase [(2, 1)] [(1, 0)]) 2 ≠ none :=
  ⟨C7_fault_propagation.1 [Except.ok ⟨429, some 3, 0⟩] 7 []
      (by intro x hx; simp at hx; exact ⟨⟨429, some 3, 0⟩, hx, by decide⟩),
   C7_fault_propagation.2.1 [(2, 1)] [(1, 0)] 7 [],
   C7_fault_propagation.2.2 [(1, 0)] [(2, 1)] 2 (by decide)⟩

/-- Thread-local state of one worker task running the body of
create_or_update_raindrop_from_raindrop_dict followed by the consuming
thread's insertion of its result at models.py line 200. pc 0: about to
perform the locked lookup of line 167; pc 1: about to run the unlocked
create-or-update of lines 169-174; pc 2: about to perform the locked
insertion of line 200; pc 3: done. found is the lookup's result and ref
the raindrop the task returns. -/
structure TaskSt where
  pc : Nat
  found : Option Nat
  ref : Nat
deriving DecidableEq, Repr

/-- Joint state of the heap, the shared _raindrops cache, and two
concurrently running tasks. -/
structure SysSt where
  heap : Heap
  cache : Cache
  t0 : TaskSt
  t1 : TaskSt
deriving DecidableEq, Repr

/-- One atomic step of a task handling record r: the LOCK of models.py
lines 166-167 covers only the cache lookup and the LOCK of lines 199-200
only the insertion, so each is one atomic step, while the construction of
a new Raindrop or the in-place update between them runs outside any lock
as its own step. A finished task does nothing. -/
def taskStep (hl : Nat → List Nat) (r : RRecord) (heap : Heap) (cache : Cache)
    (t : TaskSt) : Heap × Cache × TaskSt :=
  match t.pc with
  | 0 => (heap, cache, { t with pc := 1, found := lookupRef cache r.rid })
  | 1 =>
    match t.found with
    | none => (heap ++ [⟨r, hl r.rid⟩], cache,
        { t with pc := 2, ref := heap.length })
    | some q => (heap.set q ⟨r, hl r.rid⟩, cache, { t with pc := 2, ref := q })
  | 2 => (heap, setRef cache r.rid t.ref, { t with pc := 3 })
  | _ => (heap, cache, t)

/-- Scheduler step: pick = false advances task 0 on record r0, pick = true
advances task 1 on record r1. -/
def sysStep (hl : Nat → List Nat) (r0 r1 : RRecord) (s : SysSt) (pick : Bool) : SysSt :=
  if pick then
    let z := taskStep hl r1 s.heap s.cache s.t1
    { heap := z.1, cache := z.2.1, t0 := s.t0, t1 := z.2.2 }
  else
    let z := taskStep hl r0 s.heap s.cache s.t0
    { heap := z.1, cache := z.2.1, t0 := z.2.2, t1 := s.t1 }

/-- Run the two tasks under a given interleaving schedule. -/
def runSched (hl : Nat → List Nat) (r0 r1 : RRecord) : List Bool → SysSt → SysSt
  | [], s => s
  | b :: bs, s => runSched hl r0 r1 bs (sysStep hl r0 r1 s b)

/-- Initial state: empty heap, empty cache, both tasks at their first step. -/
def initSt : SysSt :=
  { heap := [], cache := [], t0 := ⟨0, none, 0⟩, t1 := ⟨0, none, 0⟩ }

/-- All boolean lists of length n. -/
def boolLists : Nat → List (List Bool)
  | 0 => [[]]
  | n + 1 => (boolLists n).map (List.cons false) ++ (boolLists n).map (List.cons true)

/-- The complete interleavings of two three-step tasks: schedules of length
six in which each task is picked exactly three times. -/
def allScheds : List (List Bool) :=
  (boolLists 6).filter (fun s => s.count true = 3)

/-- C3 counterexample: the read-then-mutate sequence is NOT under a single
lock — the locked lookup, the unlocked create-or-update, and the locked
insertion are separate atomic steps — and the check-then-act race is real:
when both tasks, started on an empty cache with records sharing identifier
5, perform their locked lookup before either constructs, each lookup
misses and each task constructs its own Raindrop object, leaving two
distinct objects for identifier 5 on the heap (the cache keeps only the
later one). -/
theorem C3_counterexample :
    ((runSched (fun i => [i]) ⟨5, 0⟩ ⟨5, 1⟩
        [false, true, false, true, false, true] initSt).heap.map
      (fun o => o.record.rid) = [5, 5]) ∧
    (runSched (fun i => [i]) ⟨5, 0⟩ ⟨5, 1⟩
        [false, true, false, true, false, true] initSt).heap.length = 2 ∧
    lookupRef (runSched (fun i => [i]) ⟨5, 0⟩ ⟨5, 1⟩
        [false, true, false, true, false, true] initSt).cache 5 = some 1 := by
  decide

/-- C3 amended: only the cache lookup and the cache insertion are
individually performed under the lock; the create-or-update between them
is unlocked, so two concurrent tasks handling the same uncached
identifier may each construct a distinct Raindrop object — some complete
interleavings allocate two objects, others one. Nevertheless, after every
complete interleaving of the two tasks the _raindrops dict contains
exactly one binding, for identifier 5, referencing a valid heap object,
and at most one object beyond the first was ever created. -/
theorem C3_amended_single_binding :
    (∀ s ∈ allScheds,
      ((runSched (fun i => [i]) ⟨5, 0⟩ ⟨5, 1⟩ s initSt).cache.map Prod.fst = [5]) ∧
      (∃ q, lookupRef (runSched (fun i => [i]) ⟨5, 0⟩ ⟨5, 1⟩ s initSt).cache 5 = some q ∧
        q < (runSched (fun i => [i]) ⟨5, 0⟩ ⟨5, 1⟩ s initSt).heap.length) ∧
      (1 ≤ (runSched (fun i => [i]) ⟨5, 0⟩ ⟨5, 1⟩ s initSt).heap.length ∧
       (runSched (fun i => [i]) ⟨5, 0⟩ ⟨5, 1⟩ s initSt).heap.length ≤ 2)) ∧
    (∃ s ∈ allScheds,
      (runSched (fun i => [i]) ⟨5, 0⟩ ⟨5, 1⟩ s initSt).heap.length = 2) ∧
    (∃ s ∈ allScheds,
      (runSched (fun i => [i]) ⟨5, 0⟩ ⟨5, 1⟩ s initSt).heap.length = 1) := by
  decide

/-- C3 amended witness: the fully sequential interleaving (task 0 runs to
completion, then task 1) leaves one binding for identifier 5 and a
one-object heap. -/
theorem C3_amended_single_binding_witness :
    ((runSched (fun i => [i]) ⟨5, 0⟩ ⟨5, 1⟩
        [false, false, false, true, true, true] initSt).cache.map Prod.fst = [5]) ∧
    (∃ q, lookupRef (runSched (fun i => [i]) ⟨5, 0⟩ ⟨5, 1⟩
        [false, false, false, true, true, true] initSt).cache 5 = some q ∧
      q < (runSched (fun i => [i]) ⟨5, 0⟩ ⟨5, 1⟩
        [false, false, false, true, true, true] initSt).heap.length) ∧
    (1 ≤ (runSched (fun i => [i]) ⟨5, 0⟩ ⟨5, 1⟩
        [false, false, false, true, true, true] initSt).heap.length ∧
     (runSched (fun i => [i]) ⟨5, 0⟩ ⟨5, 1⟩
        [false, false, false, true, true, true] initSt).heap.length ≤ 2) :=
  C3_amended_single_binding.1 [false, false, false, true, true, true] (by decide)

end PyRaindrop
